import Mathlib

/-!
Verification of the state layer of the markdown-viewer application:
the file registry (`useFiles`), the notification queue (`useToast`),
the theme resolver (`useTheme`) and the persistence load/save path.
Each definition is a shallow embedding of the corresponding function in
the application source; external platform inputs (generated UUIDs,
`Date.now()` readings, the OS dark-mode signal, the outcome of the
platform JSON parser) are passed in as explicit parameters.
-/

/-- A document record, embedding the `FileItem` type of the source
(fields `id`, `name`, `content`, `createdAt`, `updatedAt`; timestamps are
millisecond integers). -/
structure FileItem where
  id : String
  name : String
  content : String
  createdAt : Nat
  updatedAt : Nat
deriving DecidableEq, Repr

/-- The ids of the documents of a collection, in collection order. -/
def fileIds (files : List FileItem) : List String :=
  files.map FileItem.id

/-- Embeds `createFile`: the generated UUID and the two `Date.now()`
readings are explicit parameters; the name gets a `.md` suffix when it
lacks one; the new document is prepended; the new id is returned. -/
def createFile (files : List FileItem) (newId : String) (nowC nowU : Nat)
    (name content : String) : String × List FileItem :=
  let newFile : FileItem :=
    { id := newId
      name := if name.endsWith ".md" then name else name ++ ".md"
      content := content
      createdAt := nowC
      updatedAt := nowU }
  (newFile.id, newFile :: files)

/-- A partial update (the `Partial FileItem` argument of `updateFile`):
each field is present or absent. -/
structure FileUpdate where
  id : Option String
  name : Option String
  content : Option String
  createdAt : Option Nat
  updatedAt : Option Nat
deriving DecidableEq, Repr

/-- The spread `\x7b ...f, ...updates, updatedAt: Date.now() \x7d`: present
fields of the update override the document's fields, and `updatedAt` is
then overwritten with the current time in every case. -/
def applyUpdates (f : FileItem) (u : FileUpdate) (now : Nat) : FileItem :=
  { id := u.id.getD f.id
    name := u.name.getD f.name
    content := u.content.getD f.content
    createdAt := u.createdAt.getD f.createdAt
    updatedAt := now }

/-- The update object `\x7b content: X \x7d` passed by the save handler: only
the `content` field is present. -/
def contentUpdate (X : String) : FileUpdate :=
  { id := none, name := none, content := some X, createdAt := none, updatedAt := none }

/-- Embeds `updateFile`: map over the collection, merging the update into
the document whose id matches and leaving every other document alone. -/
def updateFile (files : List FileItem) (id : String) (u : FileUpdate) (now : Nat) :
    List FileItem :=
  files.map (fun f => if f.id = id then applyUpdates f u now else f)

/-- Embeds `deleteFile`: keep exactly the documents whose id differs. -/
def deleteFile (files : List FileItem) (id : String) : List FileItem :=
  files.filter (fun f => f.id != id)

/-- Embeds `getFile`: first document whose id matches, if any. -/
def getFile (files : List FileItem) (id : String) : Option FileItem :=
  files.find? (fun f => f.id == id)

/-- A JSON value, the result of the platform JSON parser; numbers are
restricted to the naturals, which covers every value the application
serializes (timestamps are `Date.now()` integers). -/
inductive Json where
  | null
  | bool (b : Bool)
  | num (n : Nat)
  | str (s : String)
  | arr (elems : List Json)
  | obj (fields : List (String × Json))

/-- String content of a JSON value, if it is a string. -/
def asStr : Json → Option String
  | .str s => some s
  | _ => none

/-- Numeric content of a JSON value, if it is a number. -/
def asNat : Json → Option Nat
  | .num n => some n
  | _ => none

/-- Decodes one JSON value as a document record with the five expected
fields (the structure the spec calls an element of "an array of Document
records"). -/
def decodeFileItem (j : Json) : Option FileItem :=
  match j with
  | .obj fields => do
      let i ← fields.lookup "id" >>= asStr
      let n ← fields.lookup "name" >>= asStr
      let c ← fields.lookup "content" >>= asStr
      let ca ← fields.lookup "createdAt" >>= asNat
      let ua ← fields.lookup "updatedAt" >>= asNat
      pure { id := i, name := n, content := c, createdAt := ca, updatedAt := ua }
  | _ => none

/-- Decodes a list of JSON values elementwise, failing if any element
fails. -/
def decodeFilesList : List Json → Option (List FileItem)
  | [] => some []
  | j :: rest => do
      let f ← decodeFileItem j
      let fs ← decodeFilesList rest
      pure (f :: fs)

/-- Decodes a JSON value as a collection: it must be an array of document
records. -/
def decodeFiles : Json → Option (List FileItem)
  | .arr elems => decodeFilesList elems
  | _ => none

/-- The JSON value `JSON.stringify` produces for one document: an object
with the five fields in declaration order. -/
def encodeFileItem (f : FileItem) : Json :=
  .obj [("id", .str f.id), ("name", .str f.name), ("content", .str f.content),
        ("createdAt", .num f.createdAt), ("updatedAt", .num f.updatedAt)]

/-- The JSON value `JSON.stringify` produces for the collection: the array
of the encoded documents, in order. -/
def encodeFiles (files : List FileItem) : Json :=
  .arr (files.map encodeFileItem)

/-- Embeds the initializer of `useFiles` (the load path): `stored = none`
models an absent storage key, `stored = some none` a stored string on
which `JSON.parse` throws (the `catch` returns `[]`), and
`stored = some (some j)` a stored string that the platform parser turns
into the JSON value `j`, which the code adopts as the collection through
an unchecked cast, with no structural validation. -/
def loadFiles (stored : Option (Option Json)) : Json :=
  match stored with
  | none => Json.arr []
  | some none => Json.arr []
  | some (some j) => j

/-- The load policy as the specification states it: absent or
structurally invalid stored data yields the empty collection, otherwise
the parsed collection. Stated from the spec's words, for comparison with
`loadFiles`. -/
def specLoad (stored : Option (Option Json)) : List FileItem :=
  match stored with
  | some (some j) => (decodeFiles j).getD []
  | _ => []

/-- Theme preference, as in the source type `Theme`. -/
inductive Theme where
  | light
  | dark
  | system
deriving DecidableEq, Repr

/-- Applied visual mode: the single `light`/`dark` class put on the
document root. -/
inductive Mode where
  | light
  | dark
deriving DecidableEq, Repr

/-- The resolution performed by the first effect of `useTheme`: a
`system` preference follows the OS dark signal, otherwise the preference
itself is applied. -/
def resolve (t : Theme) (osDark : Bool) : Mode :=
  match t with
  | .system => if osDark then Mode.dark else Mode.light
  | .light => Mode.light
  | .dark => Mode.dark

/-- State of the theme resolver: the stored preference, the current OS
dark signal, and the class currently applied on the root element. -/
structure ThemeState where
  pref : Theme
  osDark : Bool
  applied : Mode
deriving DecidableEq, Repr

/-- Events the theme resolver reacts to: a `setTheme` call, or a change
of the OS-level color-scheme signal. -/
inductive ThemeEvent where
  | setPref (t : Theme)
  | osChange (b : Bool)
deriving DecidableEq, Repr

/-- Embeds the two effects of `useTheme`. A `setPref` re-runs the first
effect, which resolves the (new) preference against the current OS
signal. An `osChange` reaches the media-query listener only when the
preference is `system` (the second effect returns early otherwise, so no
listener is installed), in which case the handler applies dark or light
according to the new signal; otherwise the applied class is untouched. -/
def themeStep (s : ThemeState) : ThemeEvent → ThemeState
  | .setPref t => { pref := t, osDark := s.osDark, applied := resolve t s.osDark }
  | .osChange b =>
      if s.pref = Theme.system then
        { pref := s.pref, osDark := b, applied := if b then Mode.dark else Mode.light }
      else
        { pref := s.pref, osDark := b, applied := s.applied }

/-- Notification kind, as in the source type `Toast`. -/
inductive ToastType where
  | success
  | error
  | info
deriving DecidableEq, Repr

/-- A notification: id (a `Date.now()` reading), kind, message. -/
structure Toast where
  id : Nat
  type : ToastType
  message : String
deriving DecidableEq, Repr

/-- Events of the notification queue: an `addToast` call at a given
`Date.now()` reading, the 5000 ms timeout scheduled by an `addToast`
firing for a given id, and an explicit `removeToast` (dismiss) call. -/
inductive ToastEvent where
  | add (now : Nat) (ty : ToastType) (message : String)
  | fire (id : Nat)
  | dismiss (id : Nat)
deriving DecidableEq, Repr

/-- Embeds the queue transitions of `useToast`: `addToast` appends a
toast whose id is the current `Date.now()`; both the timeout callback
and `removeToast` filter out every toast with the given id. -/
def toastStep (ts : List Toast) : ToastEvent → List Toast
  | .add now ty msg => ts ++ [{ id := now, type := ty, message := msg }]
  | .fire id => ts.filter (fun t => t.id != id)
  | .dismiss id => ts.filter (fun t => t.id != id)

/-- The queue after a sequence of events, starting empty. -/
def runToasts (events : List ToastEvent) : List Toast :=
  events.foldl toastStep []

/-- The `Date.now()` readings of the `add` events of a sequence, in
order: these are the ids handed out. -/
def addTimes (events : List ToastEvent) : List Nat :=
  events.filterMap (fun e =>
    match e with
    | .add now _ _ => some now
    | _ => none)

/-- A concrete sample document, used to instantiate proved statements. -/
def docA : FileItem :=
  { id := "a", name := "a.md", content := "x", createdAt := 0, updatedAt := 1 }

/-- A second concrete sample document with a different id. -/
def docB : FileItem :=
  { id := "b", name := "b.md", content := "y", createdAt := 0, updatedAt := 0 }

/-- A partial update that carries an `id` field, legal for the
`Partial FileItem` parameter of `updateFile`. -/
def idClashUpdate : FileUpdate :=
  { id := some "b", name := none, content := none, createdAt := none, updatedAt := none }

/-- Two `addToast` calls whose `Date.now()` readings land in the same
millisecond, as happens for two toasts raised during one event-loop
tick. -/
def sameTickEvents : List ToastEvent :=
  [ToastEvent.add 0 ToastType.success "a", ToastEvent.add 0 ToastType.error "b"]

/-- Looking up an id in a collection updated with an id-preserving update
finds the updated version of the document the lookup found before. -/
theorem getFile_updateFile (files : List FileItem) (id : String) (u : FileUpdate)
    (now : Nat) (hid : u.id = none) (f : FileItem) (hget : getFile files id = some f) :
    getFile (updateFile files id u now) id = some (applyUpdates f u now) := by
  induction files with
  | nil => simp [getFile] at hget
  | cons g rest ih =>
      by_cases h : g.id = id
      · have hg : g = f := by
          simpa [getFile, List.find?_cons_of_pos, h] using hget
        subst hg
        simp [updateFile, getFile, applyUpdates, hid, h]
      · have hget' : getFile rest id = some f := by
          simpa [getFile, List.find?_cons_of_neg, h] using hget
        have ih' := ih hget'
        simpa [updateFile, getFile, applyUpdates, hid, h,
          List.find?_cons_of_neg] using ih'

/-- An id-preserving update does not change the list of ids. -/
theorem fileIds_updateFile (files : List FileItem) (id : String) (u : FileUpdate)
    (now : Nat) (hid : u.id = none) :
    fileIds (updateFile files id u now) = fileIds files := by
  induction files with
  | nil => rfl
  | cons g rest ih =>
      by_cases h : g.id = id
      · simpa [updateFile, fileIds, applyUpdates, hid, h] using ih
      · simpa [updateFile, fileIds, h] using ih

/-- C1: with a fresh generated id, `createFile` returns an id not
previously in the collection; a subsequent `getFile` of that id returns a
document whose name is the given name with `.md` appended exactly when it
was missing, whose content is the given content; and that document is the
first element of the collection. -/
theorem createFile_spec (files : List FileItem) (newId : String) (nowC nowU : Nat)
    (name content : String) (hfresh : newId ∉ fileIds files) :
    ∃ d : FileItem,
      (createFile files newId nowC nowU name content).1 ∉ fileIds files
      ∧ getFile (createFile files newId nowC nowU name content).2
          (createFile files newId nowC nowU name content).1 = some d
      ∧ (name.endsWith ".md" = true → d.name = name)
      ∧ (name.endsWith ".md" = false → d.name = name ++ ".md")
      ∧ d.content = content
      ∧ (createFile files newId nowC nowU name content).2.head? = some d := by
  refine ⟨{ id := newId,
            name := if name.endsWith ".md" then name else name ++ ".md",
            content := content, createdAt := nowC, updatedAt := nowU },
          hfresh, ?_, ?_, ?_, rfl, rfl⟩
  · simp [createFile, getFile]
  · intro h
    simp [h]
  · intro h
    simp [h]

/-- C1 witness: a concrete instance, covering both the appended-suffix
and the kept-suffix scenario of the spec (here the name lacks the
suffix). -/
theorem createFile_spec_witness :
    ∃ d : FileItem,
      (createFile [] "u1" 3 3 "notes" "# Hi").1 ∉ fileIds []
      ∧ getFile (createFile [] "u1" 3 3 "notes" "# Hi").2
          (createFile [] "u1" 3 3 "notes" "# Hi").1 = some d
      ∧ ("notes".endsWith ".md" = true → d.name = "notes")
      ∧ ("notes".endsWith ".md" = false → d.name = "notes" ++ ".md")
      ∧ d.content = "# Hi"
      ∧ (createFile [] "u1" 3 3 "notes" "# Hi").2.head? = some d :=
  createFile_spec [] "u1" 3 3 "notes" "# Hi" (by simp [fileIds])

/-- C2: updating the content of a present document keeps its name and
creation time, sets its content, and moves its `updatedAt` forward (to
the current clock reading, assumed at least the previous one), while
every other document is untouched and the collection size is kept. -/
theorem updateFile_content_frame (files : List FileItem) (id X : String) (now : Nat)
    (f : FileItem) (hget : getFile files id = some f) (hmono : f.updatedAt ≤ now) :
    ∃ f', getFile (updateFile files id (contentUpdate X) now) id = some f'
      ∧ f'.name = f.name
      ∧ f'.createdAt = f.createdAt
      ∧ f'.content = X
      ∧ f.updatedAt ≤ f'.updatedAt
      ∧ (updateFile files id (contentUpdate X) now).length = files.length
      ∧ ∀ g ∈ files, g.id ≠ id → g ∈ updateFile files id (contentUpdate X) now := by
  refine ⟨applyUpdates f (contentUpdate X) now,
    getFile_updateFile files id (contentUpdate X) now rfl f hget,
    rfl, rfl, rfl, hmono, by simp [updateFile], ?_⟩
  intro g hg hne
  refine List.mem_map.mpr ⟨g, hg, ?_⟩
  simp [hne]

/-- C2 witness: updating the content of a one-document collection. -/
theorem updateFile_content_frame_witness :
    ∃ f', getFile (updateFile [docA] "a" (contentUpdate "y") 5) "a" = some f'
      ∧ f'.name = docA.name
      ∧ f'.createdAt = docA.createdAt
      ∧ f'.content = "y"
      ∧ docA.updatedAt ≤ f'.updatedAt
      ∧ (updateFile [docA] "a" (contentUpdate "y") 5).length = [docA].length
      ∧ ∀ g ∈ [docA], g.id ≠ "a" → g ∈ updateFile [docA] "a" (contentUpdate "y") 5 :=
  updateFile_content_frame [docA] "a" "y" 5 docA (by simp [getFile, docA]) (by decide)

/-- C3: after deleting an id the lookup of that id is absent; and
deleting or updating an id that is absent from the collection leaves the
collection exactly unchanged (a silent no-op, no error value exists in
either operation's type). -/
theorem delete_get_absent_and_missing_id_noop (files : List FileItem) (id : String)
    (u : FileUpdate) (now : Nat) :
    getFile (deleteFile files id) id = none
    ∧ (getFile files id = none → deleteFile files id = files)
    ∧ (getFile files id = none → updateFile files id u now = files) := by
  have habsent : ∀ g ∈ deleteFile files id, g.id ≠ id := by
    intro g hg
    have := List.of_mem_filter hg
    simpa using this
  refine ⟨?_, ?_, ?_⟩
  · unfold getFile
    rw [List.find?_eq_none]
    intro g hg
    simpa using habsent g hg
  · intro hnone
    have hall : ∀ g ∈ files, g.id ≠ id := by
      intro g hg
      have := List.find?_eq_none.mp hnone g hg
      simpa using this
    unfold deleteFile
    rw [List.filter_eq_self]
    intro g hg
    simpa using hall g hg
  · intro hnone
    have hall : ∀ g ∈ files, g.id ≠ id := by
      intro g hg
      have := List.find?_eq_none.mp hnone g hg
      simpa using this
    unfold updateFile
    have hcongr : files.map (fun f => if f.id = id then applyUpdates f u now else f)
        = files.map (fun f => f) := by
      apply List.map_congr_left
      intro g hg
      simp [hall g hg]
    simpa using hcongr

/-- C3 witness: deleting a present id makes its lookup absent, and
deleting or updating an id that is not in the collection changes
nothing. -/
theorem delete_get_absent_and_missing_id_noop_witness :
    getFile (deleteFile [docA, docB] "z") "z" = none
    ∧ deleteFile [docA, docB] "z" = [docA, docB]
    ∧ updateFile [docA, docB] "z" (contentUpdate "w") 9 = [docA, docB] := by
  have h := delete_get_absent_and_missing_id_noop [docA, docB] "z" (contentUpdate "w") 9
  have hz : getFile [docA, docB] "z" = none := by decide
  exact ⟨h.1, h.2.1 hz, h.2.2 hz⟩

/-- C10: `updateFile` keeps the size of the collection and updates in
place (each position holds the original document when its id differs,
and the merged document when it matches), and `deleteFile` keeps the
relative order of the remaining documents: it is an order-preserving
sublist that retains exactly the documents with a different id. -/
theorem update_delete_preserve_order (files : List FileItem) (id : String)
    (u : FileUpdate) (now : Nat) :
    (updateFile files id u now).length = files.length
    ∧ (∀ i (h1 : i < files.length) (h2 : i < (updateFile files id u now).length),
        ((files.get ⟨i, h1⟩).id ≠ id →
          (updateFile files id u now).get ⟨i, h2⟩ = files.get ⟨i, h1⟩)
        ∧ ((files.get ⟨i, h1⟩).id = id →
          (updateFile files id u now).get ⟨i, h2⟩ = applyUpdates (files.get ⟨i, h1⟩) u now))
    ∧ (deleteFile files id).Sublist files
    ∧ (∀ g ∈ files, g.id ≠ id → g ∈ deleteFile files id)
    ∧ (∀ g ∈ deleteFile files id, g ∈ files ∧ g.id ≠ id) := by
  refine ⟨by simp [updateFile], ?_, ?_, ?_, ?_⟩
  · intro i h1 h2
    have hval : (updateFile files id u now).get ⟨i, h2⟩
        = if (files.get ⟨i, h1⟩).id = id then applyUpdates (files.get ⟨i, h1⟩) u now
          else files.get ⟨i, h1⟩ := by
      simp [updateFile, List.get_eq_getElem, List.getElem_map]
    constructor
    · intro hne
      rw [hval, if_neg hne]
    · intro heq
      rw [hval, if_pos heq]
  · exact List.filter_sublist files
  · intro g hg hne
    refine List.mem_filter.mpr ⟨hg, ?_⟩
    simpa using hne
  · intro g hg
    have h1 := List.mem_of_mem_filter hg
    have h2 := List.of_mem_filter hg
    refine ⟨h1, ?_⟩
    simpa using h2

/-- C10 witness: a two-document collection, updating and deleting the
first id. -/
theorem update_delete_preserve_order_witness :
    (updateFile [docA, docB] "a" (contentUpdate "z") 7).length = [docA, docB].length
    ∧ (∀ i (h1 : i < [docA, docB].length)
        (h2 : i < (updateFile [docA, docB] "a" (contentUpdate "z") 7).length),
        (([docA, docB].get ⟨i, h1⟩).id ≠ "a" →
          (updateFile [docA, docB] "a" (contentUpdate "z") 7).get ⟨i, h2⟩
            = [docA, docB].get ⟨i, h1⟩)
        ∧ (([docA, docB].get ⟨i, h1⟩).id = "a" →
          (updateFile [docA, docB] "a" (contentUpdate "z") 7).get ⟨i, h2⟩
            = applyUpdates ([docA, docB].get ⟨i, h1⟩) (contentUpdate "z") 7))
    ∧ (deleteFile [docA, docB] "a").Sublist [docA, docB]
    ∧ (∀ g ∈ [docA, docB], g.id ≠ "a" → g ∈ deleteFile [docA, docB] "a")
    ∧ (∀ g ∈ deleteFile [docA, docB] "a", g ∈ [docA, docB] ∧ g.id ≠ "a") :=
  update_delete_preserve_order [docA, docB] "a" (contentUpdate "z") 7

/-- C8 counterexample: `updateFile` accepts a partial update that carries
an `id` field; applying it to a collection with the distinct ids "a" and
"b" changes the first document's id and leaves two documents with the
same id "b", so an operation of the registry can both change an existing
id and break pairwise distinctness. -/
theorem registry_id_unique_cex :
    fileIds [docA, docB] = ["a", "b"]
    ∧ (fileIds [docA, docB]).Nodup
    ∧ fileIds (updateFile [docA, docB] "a" idClashUpdate 5) = ["b", "b"]
    ∧ ¬ (fileIds (updateFile [docA, docB] "a" idClashUpdate 5)).Nodup := by
  decide

/-- C8 amended: starting from pairwise-distinct ids, `createFile` with a
fresh generated id, `updateFile` with a partial update that does not
carry an `id` field (as at every call site, which only passes content),
and `deleteFile` all preserve pairwise distinctness, and such an update
leaves the list of ids exactly unchanged while delete only removes. -/
theorem registry_id_unique_amended (files : List FileItem) (newId : String)
    (nowC nowU : Nat) (name content id : String) (u : FileUpdate) (now : Nat)
    (hnodup : (fileIds files).Nodup) :
    (newId ∉ fileIds files →
      (fileIds (createFile files newId nowC nowU name content).2).Nodup)
    ∧ (u.id = none → fileIds (updateFile files id u now) = fileIds files
        ∧ (fileIds (updateFile files id u now)).Nodup)
    ∧ (fileIds (deleteFile files id)).Nodup := by
  refine ⟨?_, ?_, ?_⟩
  · intro hfresh
    simp only [createFile, fileIds, List.map_cons, List.nodup_cons]
    exact ⟨by simpa [fileIds] using hfresh, by simpa [fileIds] using hnodup⟩
  · intro hid
    have heq := fileIds_updateFile files id u now hid
    exact ⟨heq, heq ▸ hnodup⟩
  · have hsub : (fileIds (deleteFile files id)).Sublist (fileIds files) := by
      simp only [fileIds, deleteFile]
      exact (List.filter_sublist files).map FileItem.id
    exact hnodup.sublist hsub

/-- C8 amended witness: a concrete two-document collection with a fresh
created id and a content-only update. -/
theorem registry_id_unique_amended_witness :
    ("c" ∉ fileIds [docA, docB] →
      (fileIds (createFile [docA, docB] "c" 4 4 "notes" "# Hi").2).Nodup)
    ∧ ((contentUpdate "w").id = none →
        fileIds (updateFile [docA, docB] "a" (contentUpdate "w") 6) = fileIds [docA, docB]
        ∧ (fileIds (updateFile [docA, docB] "a" (contentUpdate "w") 6)).Nodup)
    ∧ (fileIds (deleteFile [docA, docB] "a")).Nodup :=
  registry_id_unique_amended [docA, docB] "c" 4 4 "notes" "# Hi" "a"
    (contentUpdate "w") 6 (by decide)

/-- C5: in a state whose applied class agrees with the resolution rule
(as established by the first effect), a `light` or `dark` preference is
applied as-is and OS-signal changes never alter the applied class, while
under a `system` preference the applied class equals the OS signal, an
OS flip flips it without any `setPref`, and the agreement with the
resolution rule is preserved by every event. -/
theorem theme_resolution (s : ThemeState)
    (hinv : s.applied = resolve s.pref s.osDark) :
    (s.pref = Theme.light → s.applied = Mode.light)
    ∧ (s.pref = Theme.dark → s.applied = Mode.dark)
    ∧ (s.pref = Theme.system → s.applied = (if s.osDark then Mode.dark else Mode.light))
    ∧ (∀ e, (themeStep s e).applied
        = resolve (themeStep s e).pref (themeStep s e).osDark)
    ∧ (s.pref = Theme.system → ∀ b,
        (themeStep s (ThemeEvent.osChange b)).applied
          = (if b then Mode.dark else Mode.light))
    ∧ (s.pref = Theme.system →
        (themeStep s (ThemeEvent.osChange (!s.osDark))).applied ≠ s.applied)
    ∧ (s.pref ≠ Theme.system → ∀ b,
        (themeStep s (ThemeEvent.osChange b)).applied = s.applied) := by
  obtain ⟨p, os, ap⟩ := s
  simp only at hinv
  subst hinv
  refine ⟨?_, ?_, ?_, ?_, ?_, ?_, ?_⟩
  · intro hp
    subst hp
    rfl
  · intro hp
    subst hp
    rfl
  · intro hp
    subst hp
    rfl
  · intro e
    cases e with
    | setPref t => simp [themeStep]
    | osChange b =>
        by_cases hp : p = Theme.system
        · subst hp
          simp [themeStep, resolve]
        · cases p <;> simp_all [themeStep, resolve]
  · intro hp b
    subst hp
    simp [themeStep]
  · intro hp
    subst hp
    simp only [themeStep, resolve]
    cases os <;> simp
  · intro hp b
    simp [themeStep, hp]

/-- C5 witness: a state with the `system` preference, a light OS signal,
and the matching applied class. -/
theorem theme_resolution_witness :
    let s : ThemeState := { pref := Theme.system, osDark := false, applied := Mode.light }
    (s.pref = Theme.light → s.applied = Mode.light)
    ∧ (s.pref = Theme.dark → s.applied = Mode.dark)
    ∧ (s.pref = Theme.system → s.applied = (if s.osDark then Mode.dark else Mode.light))
    ∧ (∀ e, (themeStep s e).applied
        = resolve (themeStep s e).pref (themeStep s e).osDark)
    ∧ (s.pref = Theme.system → ∀ b,
        (themeStep s (ThemeEvent.osChange b)).applied
          = (if b then Mode.dark else Mode.light))
    ∧ (s.pref = Theme.system →
        (themeStep s (ThemeEvent.osChange (!s.osDark))).applied ≠ s.applied)
    ∧ (s.pref ≠ Theme.system → ∀ b,
        (themeStep s (ThemeEvent.osChange b)).applied = s.applied) :=
  theme_resolution { pref := Theme.system, osDark := false, applied := Mode.light } rfl

/-- An `add` event contributes its clock reading to `addTimes`. -/
theorem addTimes_cons_add (now : Nat) (ty : ToastType) (msg : String)
    (rest : List ToastEvent) :
    addTimes (ToastEvent.add now ty msg :: rest) = now :: addTimes rest := rfl

/-- A `fire` event contributes nothing to `addTimes`. -/
theorem addTimes_cons_fire (i : Nat) (rest : List ToastEvent) :
    addTimes (ToastEvent.fire i :: rest) = addTimes rest := rfl

/-- A `dismiss` event contributes nothing to `addTimes`. -/
theorem addTimes_cons_dismiss (i : Nat) (rest : List ToastEvent) :
    addTimes (ToastEvent.dismiss i :: rest) = addTimes rest := rfl

/-- If no toast in the queue has id `T` and no later `addToast` call
reads `Date.now() = T`, then no state reached by further events contains
a toast with id `T`. -/
theorem toastRun_id_free (events : List ToastEvent) (ts : List Toast) (T : Nat)
    (hts : ∀ t ∈ ts, t.id ≠ T) (hadd : ∀ x ∈ addTimes events, x ≠ T) :
    ∀ t ∈ events.foldl toastStep ts, t.id ≠ T := by
  induction events generalizing ts with
  | nil => simpa using hts
  | cons e rest ih =>
      cases e with
      | add now ty msg =>
          have hnow : now ≠ T := hadd now (by
            rw [addTimes_cons_add]
            exact List.mem_cons_self _ _)
          have hts' : ∀ t ∈ toastStep ts (ToastEvent.add now ty msg), t.id ≠ T := by
            intro t ht
            rcases List.mem_append.mp ht with h | h
            · exact hts t h
            · simp only [List.mem_singleton] at h
              subst h
              simpa using hnow
          have hadd' : ∀ x ∈ addTimes rest, x ≠ T := by
            intro x hx
            exact hadd x (by
              rw [addTimes_cons_add]
              exact List.mem_cons_of_mem _ hx)
          simpa using ih _ hts' hadd'
      | fire i =>
          have hts' : ∀ t ∈ toastStep ts (ToastEvent.fire i), t.id ≠ T := by
            intro t ht
            exact hts t (List.mem_of_mem_filter ht)
          have hadd' : ∀ x ∈ addTimes rest, x ≠ T := by
            intro x hx
            exact hadd x (by rwa [addTimes_cons_fire])
          simpa using ih _ hts' hadd'
      | dismiss i =>
          have hts' : ∀ t ∈ toastStep ts (ToastEvent.dismiss i), t.id ≠ T := by
            intro t ht
            exact hts t (List.mem_of_mem_filter ht)
          have hadd' : ∀ x ∈ addTimes rest, x ≠ T := by
            intro x hx
            exact hadd x (by rwa [addTimes_cons_dismiss])
          simpa using ih _ hts' hadd'

/-- C6: once the 5000 ms timeout scheduled for the toast added at time
`T` fires, the queue holds no toast with id `T`, and it never holds one
again provided every later `addToast` reads a different clock value (as
the clock has moved at least 5000 ms past `T`); an explicit dismiss
removes every toast with the given id from the current queue at once,
and dismissing an id a second time changes nothing. -/
theorem toast_auto_removal_and_dismiss (pre post : List ToastEvent) (T : Nat)
    (ts : List Toast) (i : Nat)
    (hpost : ∀ x ∈ addTimes post, x ≠ T) :
    (∀ t ∈ runToasts (pre ++ ToastEvent.fire T :: post), t.id ≠ T)
    ∧ (∀ t ∈ toastStep ts (ToastEvent.dismiss i), t.id ≠ i)
    ∧ toastStep (toastStep ts (ToastEvent.dismiss i)) (ToastEvent.dismiss i)
        = toastStep ts (ToastEvent.dismiss i) := by
  refine ⟨?_, ?_, ?_⟩
  · have hsplit : runToasts (pre ++ ToastEvent.fire T :: post)
        = post.foldl toastStep
            (toastStep (pre.foldl toastStep []) (ToastEvent.fire T)) := by
      simp [runToasts, List.foldl_append]
    rw [hsplit]
    refine toastRun_id_free post _ T ?_ hpost
    intro t ht
    have h1 := (List.mem_filter.mp ht).2
    simpa using h1
  · intro t ht
    have h1 := (List.mem_filter.mp ht).2
    simpa using h1
  · show (List.filter _ (List.filter _ ts)) = List.filter _ ts
    apply List.filter_eq_self.mpr
    intro t ht
    exact (List.mem_filter.mp ht).2

/-- C6 witness: a toast added at time 0, its timeout firing, a later
toast added at time 6000; and dismissing id 3 from a one-toast queue. -/
theorem toast_auto_removal_and_dismiss_witness :
    (∀ t ∈ runToasts ([ToastEvent.add 0 ToastType.success "m"]
        ++ ToastEvent.fire 0 :: [ToastEvent.add 6000 ToastType.info "n"]), t.id ≠ 0)
    ∧ (∀ t ∈ toastStep [Toast.mk 3 ToastType.info "p"] (ToastEvent.dismiss 3), t.id ≠ 3)
    ∧ toastStep (toastStep [Toast.mk 3 ToastType.info "p"] (ToastEvent.dismiss 3))
        (ToastEvent.dismiss 3)
        = toastStep [Toast.mk 3 ToastType.info "p"] (ToastEvent.dismiss 3) :=
  toast_auto_removal_and_dismiss [ToastEvent.add 0 ToastType.success "m"]
    [ToastEvent.add 6000 ToastType.info "n"] 0 [Toast.mk 3 ToastType.info "p"] 3
    (by decide)

/-- The ids in the queue always form an order-preserving sublist of the
ids already in the starting queue followed by the `Date.now()` readings
of the `add` events. -/
theorem toastRun_ids_sublist (events : List ToastEvent) (ts : List Toast) :
    ((events.foldl toastStep ts).map Toast.id).Sublist
      ((ts.map Toast.id) ++ addTimes events) := by
  induction events generalizing ts with
  | nil => simp [addTimes]
  | cons e rest ih =>
      cases e with
      | add now ty msg =>
          have h := ih (ts ++ [Toast.mk now ty msg])
          rw [addTimes_cons_add]
          simpa [toastStep, List.append_assoc] using h
      | fire i =>
          have h := ih (ts.filter (fun t => t.id != i))
          have hsub : ((ts.filter (fun t => t.id != i)).map Toast.id).Sublist
              (ts.map Toast.id) :=
            (List.filter_sublist ts).map Toast.id
          have hstep := h.trans (hsub.append (List.Sublist.refl (addTimes rest)))
          rw [addTimes_cons_fire]
          simpa [toastStep] using hstep
      | dismiss i =>
          have h := ih (ts.filter (fun t => t.id != i))
          have hsub : ((ts.filter (fun t => t.id != i)).map Toast.id).Sublist
              (ts.map Toast.id) :=
            (List.filter_sublist ts).map Toast.id
          have hstep := h.trans (hsub.append (List.Sublist.refl (addTimes rest)))
          rw [addTimes_cons_dismiss]
          simpa [toastStep] using hstep

/-- C9 counterexample: two `addToast` calls whose `Date.now()` readings
are equal (same millisecond) leave two distinct notifications in the
queue sharing the id 0, so ids are not unique for every sequence of
enqueue operations. -/
theorem toast_id_unique_cex :
    runToasts sameTickEvents
      = [Toast.mk 0 ToastType.success "a", Toast.mk 0 ToastType.error "b"]
    ∧ ¬ ((runToasts sameTickEvents).map Toast.id).Nodup := by
  decide

/-- C9 amended: provided the `Date.now()` readings of the enqueue
operations are pairwise distinct (no two `addToast` calls in the same
millisecond), no two notifications in the queue ever share an id, after
any sequence of add, timeout and dismiss events. -/
theorem toast_id_unique_amended (events : List ToastEvent)
    (h : (addTimes events).Nodup) :
    ((runToasts events).map Toast.id).Nodup := by
  have hsub := toastRun_ids_sublist events []
  simp only [List.map_nil, List.nil_append] at hsub
  exact h.sublist hsub

/-- C9 amended witness: two adds at distinct times with an interleaved
dismiss. -/
theorem toast_id_unique_amended_witness :
    ((runToasts [ToastEvent.add 1 ToastType.success "a",
        ToastEvent.dismiss 1, ToastEvent.add 2 ToastType.info "b"]).map Toast.id).Nodup :=
  toast_id_unique_amended [ToastEvent.add 1 ToastType.success "a",
    ToastEvent.dismiss 1, ToastEvent.add 2 ToastType.info "b"] (by decide)

/-- Decoding the encoding of one document gives the document back. -/
theorem decode_encode_fileItem (f : FileItem) :
    decodeFileItem (encodeFileItem f) = some f := rfl

/-- C7: serializing the collection and deserializing it reproduces an
equal collection: every document's id, name, content and integer
timestamps round-trip exactly and the order is preserved. -/
theorem files_roundtrip (files : List FileItem) :
    decodeFiles (encodeFiles files) = some files := by
  induction files with
  | nil => rfl
  | cons f rest ih =>
      have ih' : decodeFilesList (rest.map encodeFileItem) = some rest := by
        simpa [encodeFiles, decodeFiles] using ih
      simp [encodeFiles, decodeFiles, decodeFilesList, decode_encode_fileItem, ih']

/-- C4 counterexample: a stored value that is valid JSON but not an
array of document records (here the number 42) is not replaced by the
empty collection: the registry adopts the raw parsed value, which is not
the encoding of the collection the claim prescribes (the empty one). -/
theorem load_structural_fallback_cex :
    loadFiles (some (some (Json.num 42)))
      ≠ encodeFiles (specLoad (some (some (Json.num 42)))) := by
  intro h
  exact Json.noConfusion h

/-- C4 amended: the registry starts empty exactly when the stored value
is absent or fails to parse as JSON (no error surfaced, the types are
total); a stored value that parses as JSON is adopted as the collection
without structural validation, so when it is a valid encoding of a
collection the registry starts with that collection, in agreement with
the spec's load policy, and otherwise it starts with the raw parsed
value rather than the empty collection. -/
theorem load_json_fallback_amended (j : Json) (l : List FileItem)
    (h : decodeFiles j = some l) :
    decodeFiles (loadFiles none) = some []
    ∧ decodeFiles (loadFiles (some none)) = some []
    ∧ loadFiles (some (some j)) = j
    ∧ decodeFiles (loadFiles (some (some j))) = some l
    ∧ specLoad (some (some j)) = l := by
  refine ⟨rfl, rfl, rfl, h, ?_⟩
  simp [specLoad, h]

/-- C4 amended witness: a stored value holding the encoding of the
one-document collection. -/
theorem load_json_fallback_amended_witness :
    decodeFiles (loadFiles none) = some []
    ∧ decodeFiles (loadFiles (some none)) = some []
    ∧ loadFiles (some (some (encodeFiles [docA]))) = encodeFiles [docA]
    ∧ decodeFiles (loadFiles (some (some (encodeFiles [docA])))) = some [docA]
    ∧ specLoad (some (some (encodeFiles [docA]))) = [docA] :=
  load_json_fallback_amended (encodeFiles [docA]) [docA] (by decide)
